import Mathlib

/-!
Verification of the extraction / parsing / ranking core of the
Recruitment-Agent service (`main.py`).

The embedding models:
* the JSON values produced by Python's `json.loads` (restricted to integer
  numerals; float literals are not exercised by any claim),
* the greedy brace extraction `re.search(r"(\{.*\})", resp_text, re.S)`,
* the per-document scoring-response parsing in `match_resumes`
  (lines 194-220 of `main.py`),
* the document-text extractor `_read_upload_text` (lines 45-62), with the
  pdfplumber / python-docx library behaviour supplied as per-upload oracles
  and the UTF-8 `errors="ignore"` decode modelled byte-exactly,
* the batch loop, size validation, ranking sort and best-candidate pick of
  `match_resumes` (lines 174-225).

The external generation call `_gemini_generate` is a service boundary: its
outcome for each document (returned text, or a raised exception message) is
an input of the model.  Prompt construction (`_scoring_prompt`, `_shorten`)
only feeds that boundary and is absorbed into the oracle.

Strings are modelled as `List Char` throughout.
-/

mutual
/-- Python values as produced by `json.loads` (numerals restricted to
integers; no claim exercises float literals). -/
inductive Json where
  | null : Json
  | bool : Bool → Json
  | num : Int → Json
  | str : List Char → Json
  | arr : JArr → Json
  | obj : JObj → Json
deriving DecidableEq, Repr

/-- The elements of a JSON array, in order. -/
inductive JArr where
  | nil : JArr
  | cons : Json → JArr → JArr
deriving DecidableEq, Repr

/-- The key/value entries of a JSON object, in source order. -/
inductive JObj where
  | nil : JObj
  | cons : List Char → Json → JObj → JObj
deriving DecidableEq, Repr
end

/-- The elements of a JSON array as a Lean list. -/
def JArr.toList : JArr → List Json
  | .nil => []
  | .cons v rest => v :: rest.toList

/-- Python `dict.get k` on the dict built by `json.loads`: later duplicate
keys overwrite earlier ones, so lookup returns the last binding. -/
def jget (kvs : JObj) (k : List Char) : Option Json :=
  match kvs with
  | .nil => none
  | .cons k' v rest =>
    match jget rest k with
    | some r => some r
    | none => if k' = k then some v else none

/-- Decimal digits of a natural number (most significant first). -/
def natDigits (fuel n : Nat) : List Char :=
  match fuel with
  | 0 => []
  | fuel + 1 =>
    if n < 10 then [Char.ofNat (48 + n)]
    else natDigits fuel (n / 10) ++ [Char.ofNat (48 + n % 10)]

/-- Decimal rendering of an integer, as Python's `str` renders ints. -/
def intRepr (n : Int) : List Char :=
  if n < 0 then '-' :: natDigits n.natAbs n.natAbs
  else natDigits (n.toNat + 1) n.toNat

mutual
/-- Python `str(x)` on a `json.loads` value: strings render verbatim,
`True` / `False` / `None` use Python spellings, containers use `repr`. -/
def pyStr : Json → List Char
  | .null => 'N' :: 'o' :: 'n' :: 'e' :: []
  | .bool true => 'T' :: 'r' :: 'u' :: 'e' :: []
  | .bool false => 'F' :: 'a' :: 'l' :: 's' :: 'e' :: []
  | .num n => intRepr n
  | .str s => s
  | .arr l => '[' :: pyReprList l ++ [']']
  | .obj kvs => '{' :: pyReprObj kvs ++ ['}']

/-- Python `repr(x)`: like `pyStr` but strings get single quotes. -/
def pyRepr : Json → List Char
  | .str s => '\'' :: s ++ ['\'']
  | v => pyStr v

def pyReprList : JArr → List Char
  | .nil => []
  | .cons v .nil => pyRepr v
  | .cons v rest => pyRepr v ++ ',' :: ' ' :: pyReprList rest

def pyReprObj : JObj → List Char
  | .nil => []
  | .cons k v .nil => '\'' :: k ++ '\'' :: ':' :: ' ' :: pyRepr v
  | .cons k v rest => '\'' :: k ++ '\'' :: ':' :: ' ' :: pyRepr v ++ ',' :: ' ' :: pyReprObj rest
end

/-- Python truthiness of a `json.loads` value (used by `x or ""`). -/
def pyTruthy : Json → Bool
  | .null => false
  | .bool b => b
  | .num n => n != 0
  | .str s => !s.isEmpty
  | .arr .nil => false
  | .arr _ => true
  | .obj .nil => false
  | .obj _ => true

/-- Is this character an ASCII decimal digit? -/
def isDigitChar (c : Char) : Bool := '0' ≤ c && c ≤ '9'

/-- Numeric value of a digit string (most significant first). -/
def digitsToNat (ds : List Char) : Nat :=
  ds.foldl (fun acc c => acc * 10 + (c.toNat - 48)) 0

/-- Python `int(s)` on a string: strip surrounding whitespace, accept an
optional sign followed by a nonempty digit run; anything else raises. -/
def pyIntOfString (s : List Char) : Option Int :=
  let t := (s.dropWhile (· = ' ')).reverse.dropWhile (· = ' ') |>.reverse
  let (neg, ds) :=
    match t with
    | '-' :: rest => (true, rest)
    | '+' :: rest => (false, rest)
    | _ => (false, t)
  if ds.isEmpty then none
  else if ds.all isDigitChar then
    some (if neg then -(digitsToNat ds : Int) else (digitsToNat ds : Int))
  else none

/-- Python `int(x)` on a `json.loads` value: ints pass through, bools map
to 0/1, digit strings parse, everything else raises (`none`). -/
def pyInt : Json → Option Int
  | .num n => some n
  | .bool b => some (if b then 1 else 0)
  | .str s => pyIntOfString s
  | _ => none

/-! ### A model of `json.loads`

Recursive-descent parser over `List Char` with a fuel parameter, following
Python's strict JSON grammar, except that float literals (a fraction or
exponent part after the integer digits) are outside the model: no claim
exercises them, and the parser rejects them explicitly. -/

/-- JSON whitespace, as skipped by Python's `json` module. -/
def isJsonWs (c : Char) : Bool :=
  c = ' ' || c = '\t' || c = '\n' || c = '\r'

/-- Drop leading JSON whitespace. -/
def skipWs (s : List Char) : List Char := s.dropWhile isJsonWs

/-- Hexadecimal digit value, for `\uXXXX` escapes. -/
def hexVal (c : Char) : Option Nat :=
  if '0' ≤ c && c ≤ '9' then some (c.toNat - 48)
  else if 'a' ≤ c && c ≤ 'f' then some (c.toNat - 87)
  else if 'A' ≤ c && c ≤ 'F' then some (c.toNat - 55)
  else none

/-- Parse the body of a JSON string literal (the opening quote already
consumed); returns the decoded characters and the remaining input after the
closing quote.  Unescaped control characters and invalid escapes fail, as
in Python's strict mode. -/
def parseJString (fuel : Nat) (s : List Char) : Option (List Char × List Char) :=
  match fuel, s with
  | 0, _ => none
  | _, [] => none
  | fuel + 1, c :: rest =>
    if c = '"' then some ([], rest)
    else if c = '\\' then
      match rest with
      | [] => none
      | e :: rest2 =>
        let esc : Option (Char × List Char) :=
          if e = '"' then some ('"', rest2)
          else if e = '\\' then some ('\\', rest2)
          else if e = '/' then some ('/', rest2)
          else if e = 'b' then some (Char.ofNat 8, rest2)
          else if e = 'f' then some (Char.ofNat 12, rest2)
          else if e = 'n' then some (Char.ofNat 10, rest2)
          else if e = 'r' then some (Char.ofNat 13, rest2)
          else if e = 't' then some (Char.ofNat 9, rest2)
          else if e = 'u' then
            match rest2 with
            | h1 :: h2 :: h3 :: h4 :: rest3 =>
              match hexVal h1, hexVal h2, hexVal h3, hexVal h4 with
              | some a, some b, some c2, some d =>
                some (Char.ofNat (((a * 16 + b) * 16 + c2) * 16 + d), rest3)
              | _, _, _, _ => none
            | _ => none
          else none
        match esc with
        | some (ch, r) => (parseJString fuel r).map (fun p => (ch :: p.1, p.2))
        | none => none
    else if c.toNat < 32 then none
    else (parseJString fuel rest).map (fun p => (c :: p.1, p.2))

/-- Parse a JSON integer numeral (strict grammar: optional minus, no leading
zeros).  A fraction or exponent part would be a Python float: outside the
model, rejected. -/
def parseNum (s : List Char) : Option (Json × List Char) :=
  let (neg, t) := match s with | '-' :: r => (true, r) | _ => (false, s)
  let ds := t.takeWhile isDigitChar
  let rest := t.dropWhile isDigitChar
  if ds.isEmpty then none
  else if ds.length > 1 && ds.head? = some '0' then none
  else
    match rest with
    | '.' :: _ => none
    | 'e' :: _ => none
    | 'E' :: _ => none
    | _ => some (.num (if neg then -(digitsToNat ds : Int) else (digitsToNat ds : Int)), rest)

mutual
/-- Parse one JSON value (leading whitespace allowed); returns the value and
the remaining input. -/
def pjVal (fuel : Nat) (s : List Char) : Option (Json × List Char) :=
  match fuel with
  | 0 => none
  | fuel + 1 =>
    match skipWs s with
    | [] => none
    | c :: rest =>
      if c = '{' then
        match skipWs rest with
        | '}' :: r => some (.obj .nil, r)
        | s1 => (pjMembers fuel s1).map (fun p => (Json.obj p.1, p.2))
      else if c = '[' then
        match skipWs rest with
        | ']' :: r => some (.arr .nil, r)
        | s1 => (pjElems fuel s1).map (fun p => (Json.arr p.1, p.2))
      else if c = '"' then
        (parseJString (rest.length + 1) rest).map (fun p => (Json.str p.1, p.2))
      else if c = 't' then
        match rest with
        | 'r' :: 'u' :: 'e' :: r => some (.bool true, r)
        | _ => none
      else if c = 'f' then
        match rest with
        | 'a' :: 'l' :: 's' :: 'e' :: r => some (.bool false, r)
        | _ => none
      else if c = 'n' then
        match rest with
        | 'u' :: 'l' :: 'l' :: r => some (.null, r)
        | _ => none
      else if c = '-' || isDigitChar c then parseNum (c :: rest)
      else none

/-- Parse the members of a JSON object, positioned at the first key
(whitespace already skipped), through the closing brace. -/
def pjMembers (fuel : Nat) (s : List Char) : Option (JObj × List Char) :=
  match fuel with
  | 0 => none
  | fuel + 1 =>
    match s with
    | '"' :: rest =>
      match parseJString (rest.length + 1) rest with
      | none => none
      | some (k, r1) =>
        match skipWs r1 with
        | ':' :: r2 =>
          match pjVal fuel r2 with
          | none => none
          | some (v, r3) =>
            match skipWs r3 with
            | ',' :: r4 => (pjMembers fuel (skipWs r4)).map (fun p => (JObj.cons k v p.1, p.2))
            | '}' :: r4 => some (.cons k v .nil, r4)
            | _ => none
        | _ => none
    | _ => none

/-- Parse the elements of a JSON array, through the closing bracket. -/
def pjElems (fuel : Nat) (s : List Char) : Option (JArr × List Char) :=
  match fuel with
  | 0 => none
  | fuel + 1 =>
    match pjVal fuel s with
    | none => none
    | some (v, r1) =>
      match skipWs r1 with
      | ',' :: r2 => (pjElems fuel r2).map (fun p => (JArr.cons v p.1, p.2))
      | ']' :: r2 => some (.cons v .nil, r2)
      | _ => none
end

/-- Python's `json.loads`: parse one value, then require only whitespace to
follow.  Fuel `2 * length + 2` is ample for any input actually parsed. -/
def json_loads (s : List Char) : Option Json :=
  match pjVal (2 * s.length + 2) s with
  | some (v, rest) => if (skipWs rest).isEmpty then some v else none
  | none => none

/-! ### The scoring-response parser (`match_resumes`, lines 194-220)

`re.search(r"(\{.*\})", resp_text, re.S)` matches from the first `'{'` of
the text through the last `'}'` at or after it (leftmost match start,
greedy `.*` with `.` matching newlines), or fails when no such pair
exists. -/

/-- The prefix of a list up to and including its last `'}'`, if any. -/
def truncAtLastClose : List Char → Option (List Char)
  | [] => none
  | c :: rest =>
    match truncAtLastClose rest with
    | some t => some (c :: t)
    | none => if c = '}' then some [c] else none

/-- The substring captured by `re.search(r"(\{.*\})", s, re.S)`: the match
starts at the first `'{'` (leftmost match) and the greedy `.*` runs to the
last `'}'` at or after it; no such pair means no match. -/
def braceSlice (s : List Char) : Option (List Char) :=
  match s with
  | [] => none
  | c :: rest => if c = '{' then truncAtLastClose (c :: rest) else braceSlice rest

/-- One per-resume result row, as appended at lines 215-220 of `main.py`.
Python's dict values are dynamic, so `missing_skills` elements and
`remarks` stay `Json`. -/
structure ScoreRecord where
  filename : List Char
  score : Int
  missing_skills : List Json
  remarks : Json
deriving DecidableEq, Repr

/-- The dict key `"score"`. -/
def scoreKey : List Char := 's' :: 'c' :: 'o' :: 'r' :: 'e' :: []

/-- The dict key `"missing_skills"`. -/
def msKey : List Char :=
  'm' :: 'i' :: 's' :: 's' :: 'i' :: 'n' :: 'g' :: '_' :: 's' :: 'k' :: 'i' :: 'l' :: 'l' :: 's' :: []

/-- The dict key `"remarks"`. -/
def remarksKey : List Char := 'r' :: 'e' :: 'm' :: 'a' :: 'r' :: 'k' :: 's' :: []

/-- Message of the `json.JSONDecodeError` raised by `json.loads`. -/
def jsonErrMsg : List Char :=
  'E' :: 'x' :: 'p' :: 'e' :: 'c' :: 't' :: 'i' :: 'n' :: 'g' :: ' ' :: 'v' :: 'a' :: 'l' :: 'u' :: 'e' :: []

/-- Message of the `ValueError`/`TypeError` raised by `int(...)`. -/
def intErrMsg : List Char :=
  'i' :: 'n' :: 'v' :: 'a' :: 'l' :: 'i' :: 'd' :: ' ' :: 'i' :: 'n' :: 't' :: []

/-- Message of the `AttributeError` raised by `.get` on a non-dict. -/
def getErrMsg : List Char :=
  'n' :: 'o' :: ' ' :: 'a' :: 't' :: 't' :: 'r' :: 'i' :: 'b' :: 'u' :: 't' :: 'e' :: ' ' :: 'g' :: 'e' :: 't' :: []

/-- The body of the `try` block at lines 195-208 applied to a response
text: locate the JSON, `json.loads` it, read `score` / `missing_skills` /
`remarks` with defaults, coerce the score with `int(...)`, wrap a
non-list `missing_skills`.  `.error` is the exception caught at line 209,
carrying a description of the raised exception. -/
def tryExtract (resp_text : List Char) : Except (List Char) (Int × List Json × Json) :=
  let candidate := (braceSlice resp_text).getD resp_text
  match json_loads candidate with
  | none => .error jsonErrMsg
  | some (.obj parsed) =>
    match pyInt ((jget parsed scoreKey).getD (Json.num 0)) with
    | none => .error intErrMsg
    | some score =>
      let ms := (jget parsed msKey).getD (Json.arr .nil)
      let remarks0 := (jget parsed remarksKey).getD (Json.str [])
      let remarks := if pyTruthy remarks0 then remarks0 else Json.str []
      let msList := match ms with
        | Json.arr l => l.toList
        | v => [Json.str (pyStr v)]
      .ok (score, msList, remarks)
  | some _ => .error getErrMsg

/-- The remarks string built at line 213: `f"Scoring failed: {e}"`. -/
def scoringFailed (e : List Char) : List Char :=
  'S' :: 'c' :: 'o' :: 'r' :: 'i' :: 'n' :: 'g' :: ' ' :: 'f' :: 'a' :: 'i' :: 'l' :: 'e' :: 'd' :: ':' :: ' ' :: e

/-- The whole parsing step for one response text: the `try` body on
success, the `except` fallback (score 0, empty skills, explanatory
remarks) on any failure. -/
def parseRecord (fname : List Char) (resp_text : List Char) : ScoreRecord :=
  match tryExtract resp_text with
  | .ok (score, ms, remarks) => ⟨fname, score, ms, remarks⟩
  | .error e => ⟨fname, 0, [], Json.str (scoringFailed e)⟩

/-! ### The document-text extractor (`_read_upload_text`, lines 45-62)

pdfplumber and python-docx are external libraries; what they yield on the
uploaded bytes is supplied as per-upload oracles: `pdfView` is the list of
pages (each page's `extract_text()`, `none` when a page has no text —
mapped to `""` by the source's `or ""`), or `none` when `pdfplumber.open`
raises; likewise `docxView` for paragraphs.  The plain-text branch decodes
the raw bytes itself. -/

/-- One uploaded file, with the two library oracles. -/
structure Upload where
  filename : List Char
  content : List Nat
  pdfView : Option (List (Option (List Char)))
  docxView : Option (List (List Char))
deriving DecidableEq, Repr

/-- One step of Python's UTF-8 decoder: decode the first sequence, or
report how many bytes of a maximal valid prefix to skip (the
`errors="ignore"` handler drops exactly those). -/
def utf8Step (l : List Nat) : Option Char × Nat :=
  match l with
  | [] => (none, 1)
  | b :: rest =>
    let cont := fun (x : Nat) => 0x80 ≤ x && x ≤ 0xBF
    if b < 0x80 then (some (Char.ofNat b), 1)
    else if 0xC2 ≤ b && b ≤ 0xDF then
      match rest with
      | b2 :: _ =>
        if cont b2 then (some (Char.ofNat (((b - 0xC0) <<< 6) + (b2 - 0x80))), 2)
        else (none, 1)
      | [] => (none, 1)
    else if 0xE0 ≤ b && b ≤ 0xEF then
      let okB2 := fun (x : Nat) =>
        if b = 0xE0 then 0xA0 ≤ x && x ≤ 0xBF
        else if b = 0xED then 0x80 ≤ x && x ≤ 0x9F
        else cont x
      match rest with
      | [] => (none, 1)
      | b2 :: rest2 =>
        if okB2 b2 then
          match rest2 with
          | [] => (none, 2)
          | b3 :: _ =>
            if cont b3 then
              (some (Char.ofNat (((b - 0xE0) <<< 12) + ((b2 - 0x80) <<< 6) + (b3 - 0x80))), 3)
            else (none, 2)
        else (none, 1)
    else if 0xF0 ≤ b && b ≤ 0xF4 then
      let okB2 := fun (x : Nat) =>
        if b = 0xF0 then 0x90 ≤ x && x ≤ 0xBF
        else if b = 0xF4 then 0x80 ≤ x && x ≤ 0x8F
        else cont x
      match rest with
      | [] => (none, 1)
      | b2 :: rest2 =>
        if okB2 b2 then
          match rest2 with
          | [] => (none, 2)
          | b3 :: rest3 =>
            if cont b3 then
              match rest3 with
              | [] => (none, 3)
              | b4 :: _ =>
                if cont b4 then
                  (some (Char.ofNat ((((b - 0xF0) <<< 18) + ((b2 - 0x80) <<< 12)) + ((b3 - 0x80) <<< 6) + (b4 - 0x80))), 4)
                else (none, 3)
            else (none, 2)
        else (none, 1)
    else (none, 1)

/-- Decode loop for `bytes.decode("utf-8", errors="ignore")`: undecodable
sequences are silently dropped, nothing is ever substituted for them. -/
def decodeLoop (fuel : Nat) (l : List Nat) : List Char :=
  match fuel, l with
  | 0, _ => []
  | _, [] => []
  | fuel + 1, l =>
    let (c, k) := utf8Step l
    let rest := l.drop (max k 1)
    match c with
    | some ch => ch :: decodeLoop fuel rest
    | none => decodeLoop fuel rest

/-- `content.decode("utf-8", errors="ignore")` (line 57). -/
def decodeUtf8Ignore (l : List Nat) : List Char := decodeLoop l.length l

/-- `"\n".join(texts)`. -/
def joinNl (texts : List (List Char)) : List Char :=
  match texts with
  | [] => []
  | [t] => t
  | t :: rest => t ++ '\n' :: joinNl rest

/-- Does the lower-cased name end with the given suffix
(Python `str.endswith`)? -/
def endsWith (s suffix : List Char) : Bool :=
  decide (suffix <:+ s)

/-- `_read_upload_text` (lines 45-62): dispatch on the lower-cased filename
suffix; PDF joins page texts (`p.extract_text() or ""`), DOCX joins
paragraph texts, anything else decodes the bytes with `errors="ignore"`.
Library-level failures on the PDF/DOCX paths propagate (`.error`); the
stream-closing `finally` has no observable effect here. -/
def pdfSuffix : List Char := '.' :: 'p' :: 'd' :: 'f' :: []

def docxSuffix : List Char := '.' :: 'd' :: 'o' :: 'c' :: 'x' :: []

def docSuffix : List Char := '.' :: 'd' :: 'o' :: 'c' :: []

def _read_upload_text (up : Upload) : Except Unit (List Char) :=
  let fname := up.filename.map Char.toLower
  if endsWith fname pdfSuffix then
    match up.pdfView with
    | some pages => .ok (joinNl (pages.map (fun p => p.getD [])))
    | none => .error ()
  else if endsWith fname docxSuffix || endsWith fname docSuffix then
    match up.docxView with
    | some paras => .ok (joinNl paras)
    | none => .error ()
  else .ok (decodeUtf8Ignore up.content)

/-! ### The batch loop and ranking (`match_resumes`, lines 167-225)

The JD resolution (lines 174-183) only feeds the prompt, which in turn only
feeds the generation oracle, so the model starts at the resume checks.
Each resume carries its generation outcome: `.ok text` is the stripped
response text of `_gemini_generate`, `.error e` the exception it raised
(the `HTTPException` of line 86, caught by the `except` at line 209). -/

instance {ε α : Type} [DecidableEq ε] [DecidableEq α] : DecidableEq (Except ε α) := fun a b =>
  match a, b with
  | .ok x, .ok y =>
    if h : x = y then isTrue (by rw [h]) else isFalse (by intro hh; cases hh; exact h rfl)
  | .error x, .error y =>
    if h : x = y then isTrue (by rw [h]) else isFalse (by intro hh; cases hh; exact h rfl)
  | .ok _, .error _ => isFalse (by intro h; cases h)
  | .error _, .ok _ => isFalse (by intro h; cases h)

/-- One resume of the batch: the upload plus the generation-service oracle
for the prompt built from it. -/
structure ResumeDoc where
  file : Upload
  gen : Except (List Char) (List Char)
deriving DecidableEq, Repr

/-- Lines 194-220 for one resume whose text was already extracted: run the
generation call and the parsing inside `try`, fall back on any exception. -/
def evalDoc (d : ResumeDoc) : ScoreRecord :=
  match d.gen with
  | .ok resp_text => parseRecord d.file.filename resp_text
  | .error e => ⟨d.file.filename, 0, [], Json.str (scoringFailed e)⟩

/-- The `for up in resumes` loop (lines 191-220).  `_read_upload_text` is
called OUTSIDE the `try` (line 192), so an extraction failure raises out of
the whole endpoint: no results survive.  The extracted text only feeds the
prompt, hence the oracle. -/
def evalBatch : List ResumeDoc → Except Unit (List ScoreRecord)
  | [] => .ok []
  | d :: ds =>
    match _read_upload_text d.file with
    | .error e => .error e
    | .ok _ =>
      match evalBatch ds with
      | .error e => .error e
      | .ok recs => .ok (evalDoc d :: recs)

/-- Stable insertion for a descending sort on `score`: a record is placed
before the first strictly smaller score, after all earlier equals. -/
def insertRec (r : ScoreRecord) : List ScoreRecord → List ScoreRecord
  | [] => [r]
  | x :: xs => if x.score ≤ r.score then r :: x :: xs else x :: insertRec r xs

/-- `results.sort(key=lambda x: x["score"], reverse=True)` (line 223):
Python's sort is stable and `reverse=True` inverts the key comparison
without disturbing equal keys, which is exactly stable insertion sort on
descending score. -/
def sortRecords : List ScoreRecord → List ScoreRecord
  | [] => []
  | x :: xs => insertRec x (sortRecords xs)

/-- Detail of the 400 raised at line 186. -/
def errAtLeastOne : List Char :=
  'A' :: 't' :: ' ' :: 'l' :: 'e' :: 'a' :: 's' :: 't' :: ' ' :: 'o' :: 'n' :: 'e' :: ' ' :: 'r' :: 'e' :: 's' :: 'u' :: 'm' :: 'e' :: []

/-- Detail of the 400 raised at line 188. -/
def errMax20 : List Char :=
  'M' :: 'a' :: 'x' :: 'i' :: 'm' :: 'u' :: 'm' :: ' ' :: '2' :: '0' :: ' ' :: 'r' :: 'e' :: 's' :: 'u' :: 'm' :: 'e' :: 's' :: []

/-- The endpoint's failure modes: the explicit `HTTPException(400, msg)`
validations, or an exception escaping the handler (extraction failure). -/
inductive BatchError where
  | badRequest : List Char → BatchError
  | serverError : BatchError
deriving DecidableEq, Repr

/-- HTTP status of a `BatchError`. -/
def statusOf : BatchError → Nat
  | .badRequest _ => 400
  | .serverError => 500

/-- The endpoint's successful response: `{"matches": ..., "best_candidate": ...}`
(`matches` is a Lean keyword, hence the primed field name). -/
structure MatchReport where
  matches' : List ScoreRecord
  best_candidate : Option ScoreRecord
deriving DecidableEq, Repr

/-- The Candidate Ranker (lines 223-225): sort descending by score, pick
`results[0] if results else None` as `best_candidate`. -/
def rankReport (results : List ScoreRecord) : MatchReport :=
  let sorted := sortRecords results
  ⟨sorted, sorted.head?⟩

/-- `match_resumes` (lines 185-225), after JD resolution: reject an empty
batch (`if not resumes`) and more than 20 resumes with HTTP 400, evaluate
each resume, sort descending by score, pick `results[0] if results else
None`. -/
def match_resumes (resumes : List ResumeDoc) : Except BatchError MatchReport :=
  if resumes.isEmpty then
    .error (.badRequest errAtLeastOne)
  else if resumes.length > 20 then
    .error (.badRequest errMax20)
  else
    match evalBatch resumes with
    | .error _ => .error .serverError
    | .ok results => .ok (rankReport results)

/-! ### Claims -/

/-- Is an `Except` a success? -/
def exOk {ε α : Type} : Except ε α → Bool
  | .ok _ => true
  | .error _ => false

/-- A plain-prose response with no JSON-like content. -/
def notJsonText : List Char :=
  'n' :: 'o' :: 't' :: ' ' :: 'j' :: 's' :: 'o' :: 'n' :: ' ' :: 'a' :: 't' :: ' ' :: 'a' :: 'l' :: 'l' :: []

/-- C2: for every raw response text, the parsing step is total and, whenever
locating/parsing the JSON raises (here: `tryExtract` returns the caught
exception `e`), the result is exactly the fallback record with score 0,
empty `missing_skills`, and the non-empty remarks string
`"Scoring failed: " ++ e` naming the failure cause. -/
theorem C2_parser_fallback (fname resp_text e : List Char)
    (h : tryExtract resp_text = .error e) :
    parseRecord fname resp_text = ⟨fname, 0, [], Json.str (scoringFailed e)⟩ ∧
    scoringFailed e ≠ [] := by
  constructor
  · unfold parseRecord
    rw [h]
  · unfold scoringFailed
    intro hc
    cases hc

theorem C2_parser_fallback_witness :
    tryExtract notJsonText = .error jsonErrMsg ∧
    parseRecord [] notJsonText = ⟨[], 0, [], Json.str (scoringFailed jsonErrMsg)⟩ ∧
    scoringFailed jsonErrMsg ≠ [] :=
  ⟨rfl, C2_parser_fallback [] notJsonText jsonErrMsg rfl⟩

/-- C9: a request with zero resumes, or with more than 20 resumes, is
rejected with an HTTP 400 client error before any evaluation, producing no
result records. -/
theorem C9_batch_size_rejected (docs : List ResumeDoc)
    (h : docs = [] ∨ docs.length > 20) :
    ∃ m, match_resumes docs = .error (.badRequest m) ∧
      statusOf (.badRequest m) = 400 := by
  rcases h with rfl | h
  · exact ⟨errAtLeastOne, rfl, rfl⟩
  · refine ⟨errMax20, ?_, rfl⟩
    have hne : docs.isEmpty = false := by
      cases docs with
      | nil => simp at h
      | cons d ds => rfl
    unfold match_resumes
    rw [hne]
    simp only [Bool.false_eq_true, if_false, if_pos h]

theorem C9_batch_size_rejected_witness :
    (([] : List ResumeDoc) = [] ∨ ([] : List ResumeDoc).length > 20) ∧
    (∃ m, match_resumes ([] : List ResumeDoc) = .error (.badRequest m) ∧
      statusOf (.badRequest m) = 400) :=
  ⟨Or.inl rfl, C9_batch_size_rejected [] (Or.inl rfl)⟩

/-- Inserting into the stable sort permutes a cons. -/
lemma insertRec_perm (r : ScoreRecord) (l : List ScoreRecord) :
    List.Perm (insertRec r l) (r :: l) := by
  induction l with
  | nil => exact List.Perm.refl _
  | cons x xs ih =>
    unfold insertRec
    by_cases h : x.score ≤ r.score
    · rw [if_pos h]
    · rw [if_neg h]
      exact (ih.cons x).trans (List.Perm.swap r x xs)

/-- The stable sort is a permutation of its input. -/
lemma sortRecords_perm (l : List ScoreRecord) : List.Perm (sortRecords l) l := by
  induction l with
  | nil => exact List.Perm.refl _
  | cons x xs ih =>
    exact (insertRec_perm x (sortRecords xs)).trans (ih.cons x)

/-- Members of an insertion. -/
lemma mem_insertRec {y r : ScoreRecord} {l : List ScoreRecord}
    (h : y ∈ insertRec r l) : y = r ∨ y ∈ l := by
  have := (insertRec_perm r l).mem_iff.mp h
  simpa using this

/-- Insertion preserves descending sortedness. -/
lemma insertRec_pairwise (r : ScoreRecord) (l : List ScoreRecord)
    (h : List.Pairwise (fun a b => b.score ≤ a.score) l) :
    List.Pairwise (fun a b => b.score ≤ a.score) (insertRec r l) := by
  induction l with
  | nil => simp [insertRec]
  | cons x xs ih =>
    unfold insertRec
    by_cases hx : x.score ≤ r.score
    · rw [if_pos hx]
      refine List.Pairwise.cons ?_ h
      intro b hb
      rcases List.mem_cons.mp hb with rfl | hb
      · exact hx
      · exact le_trans (List.rel_of_pairwise_cons h hb) hx
    · rw [if_neg hx]
      refine List.Pairwise.cons ?_ (ih (List.Pairwise.of_cons h))
      intro b hb
      rcases mem_insertRec hb with rfl | hb
      · exact le_of_lt (not_le.mp hx)
      · exact List.rel_of_pairwise_cons h hb

/-- The sort output is descending on scores. -/
lemma sortRecords_sorted (l : List ScoreRecord) :
    List.Pairwise (fun a b => b.score ≤ a.score) (sortRecords l) := by
  induction l with
  | nil => simp [sortRecords]
  | cons x xs ih => exact insertRec_pairwise x (sortRecords xs) ih

/-- Filtering one score class through an insertion. -/
lemma filter_insertRec (r : ScoreRecord) (l : List ScoreRecord) (s : Int) :
    (insertRec r l).filter (fun x => decide (x.score = s)) =
      if r.score = s then r :: l.filter (fun x => decide (x.score = s))
      else l.filter (fun x => decide (x.score = s)) := by
  induction l with
  | nil =>
    by_cases h : r.score = s
    · simp [insertRec, List.filter, h]
    · simp [insertRec, List.filter, h]
  | cons x xs ih =>
    unfold insertRec
    by_cases hx : x.score ≤ r.score
    · rw [if_pos hx]
      by_cases h : r.score = s
      · simp [List.filter, h]
      · simp [List.filter, h]
    · rw [if_neg hx]
      have hlt : r.score < x.score := not_le.mp hx
      by_cases h : r.score = s
      · have hxs : ¬ x.score = s := by
          intro he
          rw [he, ← h] at hlt
          exact lt_irrefl _ hlt
        rw [if_pos h]
        simp only [List.filter, hxs, decide_eq_true_eq, if_neg hxs, decide_eq_false hxs, ih,
          if_pos h]
        simp [hxs]
      · rw [if_neg h]
        by_cases hxs : x.score = s
        · simp [List.filter, hxs, ih, if_neg h]
        · simp [List.filter, hxs, ih, if_neg h]

/-- Stability: each score class of the sort output is the input's score
class, in the input's order. -/
lemma filter_sortRecords (l : List ScoreRecord) (s : Int) :
    (sortRecords l).filter (fun x => decide (x.score = s)) =
      l.filter (fun x => decide (x.score = s)) := by
  induction l with
  | nil => rfl
  | cons x xs ih =>
    show (insertRec x (sortRecords xs)).filter _ = _
    rw [filter_insertRec]
    by_cases h : x.score = s
    · rw [if_pos h, ih]
      simp [List.filter, h]
    · rw [if_neg h, ih]
      simp [List.filter, h]

/-- C4: the Candidate Ranker's output is sorted by score descending, is a
permutation of its input, is stable (each score class keeps the input's
relative order), `best_candidate` is the head of the sorted output, and the
empty input yields an empty match list and an absent best candidate. -/
theorem C4_ranker_sort :
    (∀ l : List ScoreRecord,
      List.Pairwise (fun a b => b.score ≤ a.score) (rankReport l).matches' ∧
      List.Perm (rankReport l).matches' l ∧
      (∀ s : Int, (rankReport l).matches'.filter (fun x => decide (x.score = s)) =
        l.filter (fun x => decide (x.score = s))) ∧
      (rankReport l).best_candidate = (rankReport l).matches'.head?) ∧
    rankReport [] = ⟨[], none⟩ := by
  refine ⟨fun l => ⟨sortRecords_sorted l, sortRecords_perm l,
    fun s => filter_sortRecords l s, rfl⟩, rfl⟩

/-- A brace-free list has no last-close prefix. -/
lemma truncAtLastClose_of_not_mem {p : List Char} (h : '}' ∉ p) :
    truncAtLastClose p = none := by
  induction p with
  | nil => rfl
  | cons c rest ih =>
    have hr : '}' ∉ rest := fun hm => h (List.mem_cons_of_mem c hm)
    unfold truncAtLastClose
    rw [ih hr, if_neg (fun hc2 => h (List.mem_cons.mpr (Or.inl hc2.symm)))]

/-- Appending a close-free tail does not move the last `'}'`. -/
lemma truncAtLastClose_append_none {p : List Char} (t : List Char)
    (h : truncAtLastClose p = none) :
    truncAtLastClose (t ++ p) = truncAtLastClose t := by
  induction t with
  | nil => simpa using h
  | cons c rest ih =>
    show truncAtLastClose (c :: (rest ++ p)) = truncAtLastClose (c :: rest)
    unfold truncAtLastClose
    rw [ih]

/-- A list ending in `'}'` is its own last-close prefix. -/
lemma truncAtLastClose_last (xs : List Char) :
    truncAtLastClose (xs ++ ['}']) = some (xs ++ ['}']) := by
  induction xs with
  | nil => rfl
  | cons c rest ih =>
    show truncAtLastClose (c :: (rest ++ ['}'])) = some (c :: (rest ++ ['}']))
    unfold truncAtLastClose
    rw [ih]

/-- The regex match skips an open-brace-free prefix. -/
lemma braceSlice_append {p : List Char} (r : List Char) (h : '{' ∉ p) :
    braceSlice (p ++ r) = braceSlice r := by
  induction p with
  | nil => rfl
  | cons c rest ih =>
    have hc : ¬ c = '{' := fun hc => h (List.mem_cons.mpr (Or.inl hc.symm))
    have hr : '{' ∉ rest := fun hm => h (List.mem_cons_of_mem c hm)
    show (if c = '{' then truncAtLastClose (c :: (rest ++ r)) else braceSlice (rest ++ r)) = _
    rw [if_neg hc, ih hr]

/-- A `{...}` chunk is its own greedy match. -/
lemma braceSlice_self (mid : List Char) :
    braceSlice ('{' :: mid ++ ['}']) = some ('{' :: mid ++ ['}']) := by
  show (if ('{' : Char) = '{' then truncAtLastClose ('{' :: mid ++ ['}'])
        else braceSlice (mid ++ ['}'])) = _
  rw [if_pos rfl]
  exact truncAtLastClose_last ('{' :: mid)

/-- Greedy extraction of a `{...}` chunk embedded in brace-free prose. -/
lemma braceSlice_embedded (p₁ p₂ mid : List Char) (h₁ : '{' ∉ p₁) (h₂ : '}' ∉ p₂) :
    braceSlice (p₁ ++ ('{' :: mid ++ ['}']) ++ p₂) = some ('{' :: mid ++ ['}']) := by
  rw [List.append_assoc, braceSlice_append _ h₁]
  show (if ('{' : Char) = '{' then truncAtLastClose ('{' :: (mid ++ ['}'] ++ p₂))
        else braceSlice (mid ++ ['}'] ++ p₂)) = _
  rw [if_pos rfl]
  have h3 : ('{' :: (mid ++ ['}'] ++ p₂)) = ('{' :: mid ++ ['}']) ++ p₂ := by simp
  rw [h3, truncAtLastClose_append_none _ (truncAtLastClose_of_not_mem h₂)]
  exact truncAtLastClose_last ('{' :: mid)

/-- C3 (amended): when the leading prose contains no `'{'` and the trailing
prose contains no `'}'`, the parser's greedy match locates exactly the
embedded `{...}` object substring and the parsing step yields the same
record as on the object alone; with brace-containing prose the greedy slice
can swallow the prose and fail (see the counterexample). -/
theorem C3_embedded_extraction (fname p₁ p₂ mid : List Char)
    (h₁ : '{' ∉ p₁) (h₂ : '}' ∉ p₂) :
    braceSlice (p₁ ++ ('{' :: mid ++ ['}']) ++ p₂) = some ('{' :: mid ++ ['}']) ∧
    parseRecord fname (p₁ ++ ('{' :: mid ++ ['}']) ++ p₂) =
      parseRecord fname ('{' :: mid ++ ['}']) := by
  have hb := braceSlice_embedded p₁ p₂ mid h₁ h₂
  refine ⟨hb, ?_⟩
  unfold parseRecord tryExtract
  rw [hb, braceSlice_self]
  simp only [Option.getD_some]

/-- The embedded valid JSON object text used against C3. -/
def embeddedObj85 : List Char :=
  '{' :: '"' :: scoreKey ++ '"' :: ':' :: ' ' :: '8' :: '5' :: '}' :: []

/-- Leading prose that itself contains a brace pair. -/
def bracedProse : List Char :=
  '{' :: 'o' :: 'o' :: 'p' :: 's' :: '}' :: ' ' :: []

/-- C3 counterexample: `bracedProse ++ embeddedObj85` contains the valid
JSON object substring `embeddedObj85` surrounded by prose, yet the greedy
first-`'{'`-to-last-`'}'` match swallows the prose, `json.loads` fails, and
the parser falls back to score 0 instead of extracting score 85.  The
claim's "arbitrary leading and trailing prose" is false. -/
theorem C3_counterexample :
    json_loads embeddedObj85 = some (Json.obj (.cons scoreKey (Json.num 85) .nil)) ∧
    braceSlice (bracedProse ++ embeddedObj85) = some (bracedProse ++ embeddedObj85) ∧
    parseRecord [] (bracedProse ++ embeddedObj85) =
      ⟨[], 0, [], Json.str (scoringFailed jsonErrMsg)⟩ ∧
    (parseRecord [] (bracedProse ++ embeddedObj85)).score ≠ 85 := by
  refine ⟨rfl, rfl, rfl, by decide⟩

/-- Brace-free leading prose for the witness. -/
def proseBefore : List Char :=
  'S' :: 'u' :: 'r' :: 'e' :: ':' :: ' ' :: []

/-- Close-brace-free trailing prose for the witness. -/
def proseAfter : List Char :=
  ' ' :: 'd' :: 'o' :: 'n' :: 'e' :: []

/-- Interior of the witness object `{"score": 7}`. -/
def objMid7 : List Char :=
  '"' :: scoreKey ++ '"' :: ':' :: ' ' :: '7' :: []

theorem C3_embedded_extraction_witness :
    ('{' ∉ proseBefore) ∧ ('}' ∉ proseAfter) ∧
    braceSlice (proseBefore ++ ('{' :: objMid7 ++ ['}']) ++ proseAfter) =
      some ('{' :: objMid7 ++ ['}']) ∧
    parseRecord [] (proseBefore ++ ('{' :: objMid7 ++ ['}']) ++ proseAfter) =
      parseRecord [] ('{' :: objMid7 ++ ['}']) :=
  ⟨by decide, by decide,
    (C3_embedded_extraction [] proseBefore proseAfter objMid7 (by decide) (by decide)).1,
    (C3_embedded_extraction [] proseBefore proseAfter objMid7 (by decide) (by decide)).2⟩

/-- A model response whose score field is the out-of-range integer 150. -/
def resp150 : List Char :=
  '{' :: '"' :: scoreKey ++ '"' :: ':' :: ' ' :: '1' :: '5' :: '0' :: '}' :: []

/-- An upload with no special content (plain-text path). -/
def plainUpload : Upload := ⟨[], [], none, none⟩

/-- C1 counterexample: a parsed score of 150 is propagated into the record
unchanged — the code never clamps to [0,100], so the claimed invariant
fails on an out-of-range numeric value. -/
theorem C1_counterexample :
    (evalDoc ⟨plainUpload, .ok resp150⟩).score = 150 ∧
    ¬ ((evalDoc ⟨plainUpload, .ok resp150⟩).score ≤ 100) :=
  ⟨rfl, by decide⟩

/-- C1 (amended): the per-document record's score is either the fallback 0
(in particular whenever the parsed value is non-numeric, so `int(...)`
raises) or exactly the `int(...)` coercion of the parsed `score` field,
propagated without any range check or clamping. -/
theorem C1_score_unclamped (fname resp_text : List Char) :
    (parseRecord fname resp_text).score = 0 ∨
    ∃ kvs, json_loads ((braceSlice resp_text).getD resp_text) = some (Json.obj kvs) ∧
      pyInt ((jget kvs scoreKey).getD (Json.num 0)) =
        some (parseRecord fname resp_text).score := by
  unfold parseRecord tryExtract
  cases hj : json_loads ((braceSlice resp_text).getD resp_text) with
  | none => left; simp [hj]
  | some v =>
    cases v with
    | obj kvs =>
      cases hp : pyInt ((jget kvs scoreKey).getD (Json.num 0)) with
      | none => left; simp [hj, hp]
      | some sc =>
        right
        refine ⟨kvs, rfl, ?_⟩
        simp [hj, hp]
    | null => left; simp [hj]
    | bool b => left; simp [hj]
    | num n => left; simp [hj]
    | str s => left; simp [hj]
    | arr l => left; simp [hj]

/-- C7: when the parse succeeds and `missing_skills` is present but not a
list, it is wrapped as the one-element list of its Python string form; when
absent it defaults to the empty list. -/
theorem C7_scalar_skills_wrapped (fname resp_text : List Char) (kvs : JObj) (sc : Int)
    (hj : json_loads ((braceSlice resp_text).getD resp_text) = some (Json.obj kvs))
    (hs : pyInt ((jget kvs scoreKey).getD (Json.num 0)) = some sc) :
    (∀ v : Json, jget kvs msKey = some v → (∀ l : JArr, v ≠ Json.arr l) →
      (parseRecord fname resp_text).missing_skills = [Json.str (pyStr v)]) ∧
    (jget kvs msKey = none → (parseRecord fname resp_text).missing_skills = []) := by
  constructor
  · intro v hv hnarr
    unfold parseRecord tryExtract
    cases v with
    | arr l => exact absurd rfl (hnarr l)
    | null => simp [hj, hs, hv]
    | bool b => simp [hj, hs, hv]
    | num n => simp [hj, hs, hv]
    | str s => simp [hj, hs, hv]
    | obj o => simp [hj, hs, hv]
  · intro hv
    unfold parseRecord tryExtract
    simp [hj, hs, hv, JArr.toList]

/-- The characters of `"AWS"`. -/
def awsChars : List Char := 'A' :: 'W' :: 'S' :: []

/-- Spec test 8's raw response: prose, then
`{"score": 85, "missing_skills": "AWS", "remarks": "Strong fit"}`. -/
def respSpec8 : List Char :=
  'S' :: 'u' :: 'r' :: 'e' :: ',' :: ' ' :: 'h' :: 'e' :: 'r' :: 'e' :: ' ' ::
  'y' :: 'o' :: 'u' :: ' ' :: 'g' :: 'o' :: ':' :: '\n' ::
  '{' :: '"' :: scoreKey ++ '"' :: ':' :: ' ' :: '8' :: '5' :: ',' :: ' ' ::
  '"' :: msKey ++ '"' :: ':' :: ' ' :: '"' :: awsChars ++ '"' :: ',' :: ' ' ::
  '"' :: remarksKey ++ '"' :: ':' :: ' ' :: '"' ::
  'S' :: 't' :: 'r' :: 'o' :: 'n' :: 'g' :: ' ' :: 'f' :: 'i' :: 't' :: '"' :: '}' :: []

/-- The dict parsed from `respSpec8`. -/
def kvs8 : JObj :=
  .cons scoreKey (Json.num 85)
    (.cons msKey (Json.str awsChars)
      (.cons remarksKey (Json.str ('S' :: 't' :: 'r' :: 'o' :: 'n' :: 'g' :: ' ' :: 'f' :: 'i' :: 't' :: [])) .nil))

theorem C7_scalar_skills_wrapped_witness :
    json_loads ((braceSlice respSpec8).getD respSpec8) = some (Json.obj kvs8) ∧
    pyInt ((jget kvs8 scoreKey).getD (Json.num 0)) = some 85 ∧
    jget kvs8 msKey = some (Json.str awsChars) ∧
    (parseRecord [] respSpec8).missing_skills = [Json.str (pyStr (Json.str awsChars))] :=
  ⟨rfl, rfl, rfl,
    (C7_scalar_skills_wrapped [] respSpec8 kvs8 85 rfl rfl).1
      (Json.str awsChars) rfl (fun _ h => Json.noConfusion h)⟩

/-- Is a parsed value a string? -/
def isStrJson : Json → Bool
  | .str _ => true
  | _ => false

/-- A model response whose `missing_skills` is a list holding a number. -/
def respMsNum : List Char :=
  '{' :: '"' :: msKey ++ '"' :: ':' :: ' ' :: '[' :: '1' :: ']' :: '}' :: []

/-- C8 counterexample: a parsed `missing_skills` list is propagated into
the record verbatim, so its elements need not be strings (here: the number
1) — the code never validates element types (nor the 20-element bound). -/
theorem C8_counterexample :
    (evalDoc ⟨plainUpload, .ok respMsNum⟩).missing_skills = [Json.num 1] ∧
    ((evalDoc ⟨plainUpload, .ok respMsNum⟩).missing_skills.all isStrJson) = false :=
  ⟨rfl, rfl⟩

/-- C8 (amended): when the parse succeeds and `missing_skills` is a list,
the record receives exactly that list — elements of any type and any
length, with no 20-element truncation or string validation; only a scalar
is wrapped into a one-element string list (C7), and the fallback is empty. -/
theorem C8_skills_passthrough (fname resp_text : List Char) (kvs : JObj) (sc : Int) (l : JArr)
    (hj : json_loads ((braceSlice resp_text).getD resp_text) = some (Json.obj kvs))
    (hs : pyInt ((jget kvs scoreKey).getD (Json.num 0)) = some sc)
    (hm : jget kvs msKey = some (Json.arr l)) :
    (parseRecord fname resp_text).missing_skills = l.toList := by
  unfold parseRecord tryExtract
  simp [hj, hs, hm]

/-- A model response whose `missing_skills` is the list `[1, 2]`. -/
def respMs12 : List Char :=
  '{' :: '"' :: msKey ++ '"' :: ':' :: ' ' :: '[' :: '1' :: ',' :: '2' :: ']' :: '}' :: []

/-- The array `[1, 2]`. -/
def arr12 : JArr := .cons (Json.num 1) (.cons (Json.num 2) .nil)

/-- The dict parsed from `respMs12`. -/
def kvs12 : JObj := .cons msKey (Json.arr arr12) .nil

theorem C8_skills_passthrough_witness :
    json_loads ((braceSlice respMs12).getD respMs12) = some (Json.obj kvs12) ∧
    pyInt ((jget kvs12 scoreKey).getD (Json.num 0)) = some 0 ∧
    jget kvs12 msKey = some (Json.arr arr12) ∧
    (parseRecord [] respMs12).missing_skills = arr12.toList :=
  ⟨rfl, rfl, rfl, C8_skills_passthrough [] respMs12 kvs12 0 arr12 rfl rfl rfl⟩

/-- When every document's extraction succeeds, the loop yields exactly one
record per document, in order. -/
lemma evalBatch_ok (docs : List ResumeDoc)
    (h : ∀ d ∈ docs, exOk (_read_upload_text d.file) = true) :
    evalBatch docs = .ok (docs.map evalDoc) := by
  induction docs with
  | nil => rfl
  | cons d ds ih =>
    have hd := h d (List.mem_cons_self d ds)
    have hds := ih (fun x hx => h x (List.mem_cons_of_mem d hx))
    unfold evalBatch
    cases hr : _read_upload_text d.file with
    | error e => rw [hr] at hd; exact absurd hd (by simp [exOk])
    | ok t => rw [hds]; rfl

/-- One failing extraction anywhere in the batch makes the whole loop
raise: no record list is produced at all. -/
lemma evalBatch_error (docs : List ResumeDoc)
    (h : ∃ d ∈ docs, exOk (_read_upload_text d.file) = false) :
    ∃ e, evalBatch docs = .error e := by
  induction docs with
  | nil => simp at h
  | cons d ds ih =>
    rcases h with ⟨x, hx, hfail⟩
    rcases List.mem_cons.mp hx with rfl | hx'
    · cases hr : _read_upload_text x.file with
      | error e => exact ⟨e, by unfold evalBatch; rw [hr]⟩
      | ok t => rw [hr] at hfail; exact absurd hfail (by simp [exOk])
    · cases hr : _read_upload_text d.file with
      | error e => exact ⟨e, by unfold evalBatch; rw [hr]⟩
      | ok t =>
        rcases ih ⟨x, hx', hfail⟩ with ⟨e, he⟩
        exact ⟨e, by unfold evalBatch; rw [hr, he]⟩

/-- A PDF-named upload whose bytes pdfplumber cannot open. -/
def badPdfDoc : ResumeDoc :=
  ⟨⟨'b' :: 'a' :: 'd' :: pdfSuffix, [37, 80], none, none⟩, .ok notJsonText⟩

/-- A plain-text upload with a successful generation outcome. -/
def goodTxtDoc : ResumeDoc :=
  ⟨⟨'c' :: '.' :: 't' :: 'x' :: 't' :: [], [104, 105], none, none⟩, .ok resp150⟩

/-- C5 counterexample: with a corrupt first PDF in a two-document batch,
`_read_upload_text` raises outside the `try`, the whole endpoint aborts,
and NO result records are produced — the second document is dropped along
with the first, contradicting "every requested document yields exactly one
result record". -/
theorem C5_counterexample :
    evalBatch [badPdfDoc, goodTxtDoc] = .error () ∧
    match_resumes [badPdfDoc, goodTxtDoc] = .error .serverError :=
  ⟨rfl, rfl⟩

/-- C5 (amended): failure locality holds only downstream of extraction —
when every document's text extraction succeeds, each requested document
yields exactly one record (generation/parsing failures included, absorbed
per document); but a document extraction failure aborts the whole batch
and drops every entry. -/
theorem C5_extraction_aborts_batch (docs : List ResumeDoc) :
    ((∀ d ∈ docs, exOk (_read_upload_text d.file) = true) →
      evalBatch docs = .ok (docs.map evalDoc) ∧
      (docs.map evalDoc).length = docs.length) ∧
    ((∃ d ∈ docs, exOk (_read_upload_text d.file) = false) →
      ∃ e, evalBatch docs = .error e) :=
  ⟨fun h => ⟨evalBatch_ok docs h, docs.length_map evalDoc⟩,
   fun h => evalBatch_error docs h⟩

theorem C5_extraction_aborts_batch_witness :
    evalBatch [goodTxtDoc] = .ok ([goodTxtDoc].map evalDoc) ∧
    evalBatch [badPdfDoc] = .error () := by
  constructor
  · exact ((C5_extraction_aborts_batch [goodTxtDoc]).1 (by decide)).1
  · have h := (C5_extraction_aborts_batch [badPdfDoc]).2
      ⟨badPdfDoc, List.mem_cons_self _ _, by decide⟩
    rcases h with ⟨e, he⟩
    cases e
    exact he

/-- A document whose generation call raises. -/
def genFailDoc : ResumeDoc :=
  ⟨⟨'b' :: '.' :: 't' :: 'x' :: 't' :: [], [], none, none⟩,
   .error ('b' :: 'o' :: 'o' :: 'm' :: [])⟩

/-- C10: when extraction succeeds for the batch, a generation-service
failure for one resume is absorbed inside that resume's `try`: the resume
still yields exactly one fallback record (score 0, empty skills, remarks
naming the failure) and every document of the batch yields exactly one
record — the service error never surfaces to the endpoint's caller. -/
theorem C10_gen_failure_absorbed (docs : List ResumeDoc)
    (h : ∀ d ∈ docs, exOk (_read_upload_text d.file) = true) :
    evalBatch docs = .ok (docs.map evalDoc) ∧
    (docs.map evalDoc).length = docs.length ∧
    (∀ d ∈ docs, ∀ e, d.gen = .error e →
      evalDoc d = ⟨d.file.filename, 0, [], Json.str (scoringFailed e)⟩ ∧
      scoringFailed e ≠ []) := by
  refine ⟨evalBatch_ok docs h, docs.length_map evalDoc, ?_⟩
  intro d _ e hg
  constructor
  · unfold evalDoc
    rw [hg]
  · unfold scoringFailed
    intro hc
    cases hc

theorem C10_gen_failure_absorbed_witness :
    evalBatch [goodTxtDoc, genFailDoc] = .ok ([goodTxtDoc, genFailDoc].map evalDoc) ∧
    evalDoc genFailDoc =
      ⟨genFailDoc.file.filename, 0, [], Json.str (scoringFailed ('b' :: 'o' :: 'o' :: 'm' :: []))⟩ :=
  ⟨(C10_gen_failure_absorbed [goodTxtDoc, genFailDoc] (by decide)).1,
   ((C10_gen_failure_absorbed [goodTxtDoc, genFailDoc] (by decide)).2.2
      genFailDoc (by decide) ('b' :: 'o' :: 'o' :: 'm' :: []) rfl).1⟩

/-- A `.txt` upload whose bytes open with the invalid byte 0xFF. -/
def invalidTxtUpload : Upload :=
  ⟨'x' :: '.' :: 't' :: 'x' :: 't' :: [], [255, 97], none, none⟩

/-- C6 counterexample: on `[0xFF, 'a']` the extractor returns `"a"` — the
undecodable byte is silently DROPPED (`errors="ignore"`), no replacement
marker U+FFFD is substituted, contrary to the claim's "substituting a
replacement marker". -/
theorem C6_counterexample :
    _read_upload_text invalidTxtUpload = .ok ['a'] ∧
    (Char.ofNat 0xFFFD) ∉ ['a'] :=
  ⟨rfl, by decide⟩

/-- C6 (amended): for any upload whose lower-cased filename ends in none of
`.pdf`, `.docx`, `.doc`, the extractor decodes the raw bytes as UTF-8 and
never raises, but undecodable byte sequences are dropped (ignored), not
replaced by a marker. -/
theorem C6_plain_decode_never_raises (up : Upload)
    (h1 : endsWith (up.filename.map Char.toLower) pdfSuffix = false)
    (h2 : endsWith (up.filename.map Char.toLower) docxSuffix = false)
    (h3 : endsWith (up.filename.map Char.toLower) docSuffix = false) :
    _read_upload_text up = .ok (decodeUtf8Ignore up.content) := by
  simp [_read_upload_text, h1, h2, h3]

theorem C6_plain_decode_never_raises_witness :
    endsWith (invalidTxtUpload.filename.map Char.toLower) pdfSuffix = false ∧
    endsWith (invalidTxtUpload.filename.map Char.toLower) docxSuffix = false ∧
    endsWith (invalidTxtUpload.filename.map Char.toLower) docSuffix = false ∧
    _read_upload_text invalidTxtUpload = .ok (decodeUtf8Ignore invalidTxtUpload.content) :=
  ⟨by decide, by decide, by decide,
   C6_plain_decode_never_raises invalidTxtUpload (by decide) (by decide) (by decide)⟩
